import Mathlib

/-!
Verification development for the `minion` daily-digest repository.

The definitions below are a shallow embedding of the Python sources:
  * `src/providers/llm.py`   — `_extract_json`, `_is_recent`, `llm_math`,
    `llm_bible`, `llm_horoscope`, `llm_search` and the history updates;
  * `src/orchestrator.py`    — `_run_agent` and the section-building loop of
    `build_digest`;
  * `src/minion.py`          — `build_sections`.

Machine-level details that the claims do not touch (SHA-1 itself, IEEE-754
price formatting, the OpenAI transport) are abstracted as parameters or
carried through verbatim; everything else follows the Python control flow
line by line.  Backend replies are modelled as the raw text string the
provider call returned, and the on-disk history as an explicit record that
is threaded through and returned together with a `saved` flag.
-/

set_option maxRecDepth 16000

namespace Minion

/-! ### Python string helpers -/

/-- The ASCII fragment of Python's `\s` / `str.strip` whitespace set. -/
def pyWs (c : Char) : Bool :=
  c = ' ' || c = '\t' || c = '\n' || c = '\r' || c = '\x0b' || c = '\x0c'

/-- Python `str.strip()` (whitespace on both ends). -/
def pyStrip (s : String) : String :=
  String.mk (((s.toList.dropWhile pyWs).reverse.dropWhile pyWs).reverse)

/-- Python `str.lower()` (ASCII case folding; the sources only hash ASCII
problem text). -/
def pyLower (s : String) : String :=
  String.mk (s.toList.map Char.toLower)

/-! ### Dates: `datetime.date`, `fromisoformat`, day differences

`_is_recent` compares `datetime.date.today() - d` in days.  We model a date
as year/month/day and compute day numbers with the standard civil-calendar
(days-from-civil) formula, which agrees with Python's proleptic Gregorian
`datetime.date` arithmetic. -/

structure Date where
  y : Int
  m : Nat
  d : Nat
deriving DecidableEq, Repr

def isLeap (y : Int) : Bool :=
  (y % 4 = 0 && y % 100 ≠ 0) || y % 400 = 0

def daysInMonth (y : Int) (m : Nat) : Nat :=
  if m = 2 then (if isLeap y then 29 else 28)
  else if m = 4 || m = 6 || m = 9 || m = 11 then 30
  else 31

/-- Day number of a date (days-from-civil); only differences are used. -/
def rataDie (dt : Date) : Int :=
  let y : Int := if dt.m ≤ 2 then dt.y - 1 else dt.y
  let era : Int := Int.fdiv y 400
  let yoe : Int := y - era * 400
  let mp : Int := (Int.ofNat dt.m + 9) % 12
  let doy : Int := (153 * mp + 2) / 5 + Int.ofNat dt.d - 1
  let doe : Int := yoe * 365 + yoe / 4 - yoe / 100 + doy
  era * 146097 + doe

def digitVal (c : Char) : Option Nat :=
  if c.isDigit then some (c.toNat - 48) else none

/-- Python `datetime.date.fromisoformat` on the strict `YYYY-MM-DD` shape
produced by the prompts (with calendar validation and `MINYEAR = 1`). -/
def fromIso (s : String) : Option Date :=
  match s.toList with
  | [y1, y2, y3, y4, '-', m1, m2, '-', d1, d2] =>
    match digitVal y1, digitVal y2, digitVal y3, digitVal y4,
          digitVal m1, digitVal m2, digitVal d1, digitVal d2 with
    | some a, some b, some c, some d, some e, some f, some g, some h =>
      let y : Int := Int.ofNat (((a * 10 + b) * 10 + c) * 10 + d)
      let m : Nat := e * 10 + f
      let dd : Nat := g * 10 + h
      if 1 ≤ y ∧ 1 ≤ m ∧ m ≤ 12 ∧ 1 ≤ dd ∧ dd ≤ daysInMonth y m then
        some ⟨y, m, dd⟩
      else none
    | _, _, _, _, _, _, _, _ => none
  | _ => none

def pad2 (n : Nat) : String :=
  if n < 10 then "0" ++ toString n else toString n

def pad4 (n : Int) : String :=
  let s := toString n.toNat
  String.mk (List.replicate (4 - s.length) '0') ++ s

/-- Python `date.isoformat()`. -/
def isoformat (d : Date) : String :=
  pad4 d.y ++ "-" ++ pad2 d.m ++ "-" ++ pad2 d.d

/-- `_is_recent(date_str, days)` from `providers/llm.py`: `True` iff the
string parses as a date within `days` days of today (empty or unparsable
strings are rejected). -/
def is_recent (today : Date) (dateStr : String) (days : Int) : Bool :=
  if dateStr = "" then false
  else
    match fromIso dateStr with
    | none => false
    | some d => decide (rataDie today - rataDie d ≤ days)

/-! ### JSON values and a model of `json.loads`

`J` models the Python values produced by `json.loads`: numbers keep their
lexeme (the claims never compare numeric values), objects are assoc lists
with last-wins duplicate keys (insertion order of the first occurrence, as
in a Python `dict`). -/

inductive J where
  | null : J
  | bool (b : Bool) : J
  | num (lex : String) : J
  | str (s : String) : J
  | arr (elems : List J) : J
  | obj (fields : List (String × J)) : J

/-- JSON structural whitespace (what `json.loads` skips between tokens). -/
def jsonWs (c : Char) : Bool :=
  c = ' ' || c = '\t' || c = '\n' || c = '\r'

def skipJWs : List Char → List Char
  | [] => []
  | c :: cs => if jsonWs c then skipJWs cs else c :: cs

def hexDigit (c : Char) : Option Nat :=
  if c.isDigit then some (c.toNat - 48)
  else if 'a' ≤ c ∧ c ≤ 'f' then some (c.toNat - 87)
  else if 'A' ≤ c ∧ c ≤ 'F' then some (c.toNat - 55)
  else none

/-- Body of a JSON string literal (after the opening quote): returns the
decoded characters and the remainder after the closing quote.  Control
characters are rejected (strict mode); `\uXXXX` is decoded to the scalar
value when it is one (surrogate-pair recombination is not modelled). -/
def jstrAux (acc : List Char) : List Char → Option (List Char × List Char)
  | [] => none
  | '"' :: rest => some (acc.reverse, rest)
  | '\\' :: 'u' :: a :: b :: c :: d :: rest =>
    match hexDigit a, hexDigit b, hexDigit c, hexDigit d with
    | some ha, some hb, some hc, some hd =>
      jstrAux (Char.ofNat (((ha * 16 + hb) * 16 + hc) * 16 + hd) :: acc) rest
    | _, _, _, _ => none
  | '\\' :: e :: rest =>
    (match e with
     | '"' => some '"'
     | '\\' => some '\\'
     | '/' => some '/'
     | 'b' => some '\x08'
     | 'f' => some '\x0c'
     | 'n' => some '\n'
     | 'r' => some '\r'
     | 't' => some '\t'
     | _ => none).bind (fun ch => jstrAux (ch :: acc) rest)
  | c :: rest =>
    if c.toNat < 32 then none else jstrAux (c :: acc) rest

def spanDigits (cs : List Char) : List Char × List Char :=
  (cs.takeWhile Char.isDigit, cs.dropWhile Char.isDigit)

/-- Fraction and exponent part of a JSON number; returns the lexeme tail. -/
def numTail (cs : List Char) : Option (List Char × List Char) :=
  let (frac, cs1) :=
    match cs with
    | '.' :: r =>
      let (ds, r2) := spanDigits r
      if ds.isEmpty then ([], cs) else ('.' :: ds, r2)
    | _ => ([], cs)
  -- a bare dot with no digits is an error: detect via unchanged remainder
  match cs, frac with
  | '.' :: _, [] => none
  | _, _ =>
    match cs1 with
    | e :: r =>
      if e = 'e' ∨ e = 'E' then
        let (sgn, r1) :=
          match r with
          | '+' :: rr => (['+'], rr)
          | '-' :: rr => (['-'], rr)
          | _ => ([], r)
        let (ds, r2) := spanDigits r1
        if ds.isEmpty then none else some (frac ++ e :: sgn ++ ds, r2)
      else some (frac, cs1)
    | [] => some (frac, cs1)

/-- JSON number literal, keeping the exact lexeme. -/
def parseNum (cs : List Char) : Option (J × List Char) :=
  let (sign, cs1) := match cs with | '-' :: r => (['-'], r) | _ => ([], cs)
  match cs1 with
  | '0' :: r =>
    (numTail r).map (fun p => (J.num (String.mk (sign ++ '0' :: p.1)), p.2))
  | c :: r =>
    if c.isDigit then
      let (ds, r2) := spanDigits r
      (numTail r2).map
        (fun p => (J.num (String.mk (sign ++ c :: ds ++ p.1)), p.2))
    else none
  | [] => none

/-- Last-wins insertion into an object, keeping the first position of the
key — Python `dict` semantics for duplicate JSON keys. -/
def objInsert (o : List (String × J)) (k : String) (v : J) :
    List (String × J) :=
  if o.any (fun p => p.1 = k) then
    o.map (fun p => if p.1 = k then (k, v) else p)
  else o ++ [(k, v)]

/-- Work items of the fuel-indexed JSON parser: a value, the members of
an object, or the elements of an array.  A single structurally recursive
function (rather than a mutual block) so that closed evaluations reduce
definitionally. -/
inductive PJob where
  | val (cs : List Char)
  | members (cs : List Char) (acc : List (String × J))
  | elems (cs : List Char) (acc : List J)

/-- The JSON grammar: `.val` parses one value with leading whitespace
allowed; `.members` / `.elems` are positioned at a key / a value with
whitespace already skipped. -/
def parseF : Nat → PJob → Option (J × List Char)
  | 0, _ => none
  | fuel + 1, .val cs =>
    match skipJWs cs with
    | '{' :: rest =>
      (match skipJWs rest with
       | '}' :: r2 => some (J.obj [], r2)
       | rest' => parseF fuel (.members rest' []))
    | '[' :: rest =>
      (match skipJWs rest with
       | ']' :: r2 => some (J.arr [], r2)
       | rest' => parseF fuel (.elems rest' []))
    | '"' :: rest =>
      (jstrAux [] rest).map (fun p => (J.str (String.mk p.1), p.2))
    | 't' :: 'r' :: 'u' :: 'e' :: rest => some (J.bool true, rest)
    | 'f' :: 'a' :: 'l' :: 's' :: 'e' :: rest => some (J.bool false, rest)
    | 'n' :: 'u' :: 'l' :: 'l' :: rest => some (J.null, rest)
    | 'N' :: 'a' :: 'N' :: rest => some (J.num "NaN", rest)
    | 'I' :: 'n' :: 'f' :: 'i' :: 'n' :: 'i' :: 't' :: 'y' :: rest =>
      some (J.num "Infinity", rest)
    | '-' :: 'I' :: 'n' :: 'f' :: 'i' :: 'n' :: 'i' :: 't' :: 'y' :: rest =>
      some (J.num "-Infinity", rest)
    | cs' => parseNum cs'
  | fuel + 1, .members cs acc =>
    (match cs with
     | '"' :: rest =>
       (match jstrAux [] rest with
        | none => none
        | some (kcs, r1) =>
          match skipJWs r1 with
          | ':' :: r3 =>
            (match parseF fuel (.val r3) with
             | none => none
             | some (v, r4) =>
               match skipJWs r4 with
               | ',' :: r6 =>
                 parseF fuel (.members (skipJWs r6) (objInsert acc (String.mk kcs) v))
               | '}' :: r6 => some (J.obj (objInsert acc (String.mk kcs) v), r6)
               | _ => none)
          | _ => none)
     | _ => none)
  | fuel + 1, .elems cs acc =>
    (match parseF fuel (.val cs) with
     | none => none
     | some (v, r1) =>
       match skipJWs r1 with
       | ',' :: r2 => parseF fuel (.elems (skipJWs r2) (acc ++ [v]))
       | ']' :: r2 => some (J.arr (acc ++ [v]), r2)
       | _ => none)

/-- Model of Python `json.loads`: parse one value, allow surrounding
whitespace, reject trailing garbage. -/
def jsonLoads (s : String) : Option J :=
  let cs := s.toList
  match parseF (2 * cs.length + 2) (.val cs) with
  | some (v, rest) => if skipJWs rest = [] then some v else none
  | none => none

/-! ### `_extract_json` (providers/llm.py lines 39-63)

The function strips an optional fenced block, tries a direct parse, and
otherwise takes the first `\x7b` .. last `\x7d` substring, removes commas
before closing braces/brackets (`re.sub` on `,\s*\x7d` then on `,\s*]`,
which also rewrites inside string literals), and parses that repaired
candidate once. -/

/-- One `re.sub(",\s*<close>", "<close>", ·)` pass: a single left-to-right
scan replacing each non-overlapping match. -/
def stripCommaFuel (close : Char) : Nat → List Char → List Char
  | 0, cs => cs
  | _ + 1, [] => []
  | fuel + 1, ',' :: rest =>
    let rest' := rest.dropWhile pyWs
    (match rest' with
     | c :: r2 =>
       if c = close then close :: stripCommaFuel close fuel r2
       else ',' :: stripCommaFuel close fuel rest
     | [] => ',' :: stripCommaFuel close fuel rest)
  | fuel + 1, c :: rest => c :: stripCommaFuel close fuel rest

def stripComma (close : Char) (cs : List Char) : List Char :=
  stripCommaFuel close (cs.length + 1) cs

/-- The repair pass of `_extract_json`: `re.sub(r",\s*\x7d", "\x7d", ·)`
followed by `re.sub(r",\s*]", "]", ·)`. -/
def repairStr (s : String) : String :=
  String.mk (stripComma ']' (stripComma '}' s.toList))

/-- Try the fence regex ```` ```(?:json)?\s*(\{.*\})\s*``` ```` (DOTALL) at
the head of the character list; on success return the captured group.  With
a fixed start the regex is deterministic: `(?:json)?` consumes `json` when
present, `\s*` skips maximally, and the greedy `.*` takes the largest
closing position that lets `\s*` + the closing fence match. -/
def fenceCloseOk (rest : List Char) (j : Nat) : Bool :=
  decide ((rest.drop j).head? = some '}') &&
  decide (((rest.drop (j + 1)).dropWhile pyWs).take 3 = ['`', '`', '`'])

def fenceAt (cs : List Char) : Option (List Char) :=
  match cs with
  | '`' :: '`' :: '`' :: rest =>
    let rest := if rest.take 4 = ['j', 's', 'o', 'n'] then rest.drop 4 else rest
    let rest := rest.dropWhile pyWs
    match rest with
    | '{' :: _ =>
      match (List.range rest.length).reverse.find? (fenceCloseOk rest) with
      | some j => some (rest.take (j + 1))
      | none => none
    | _ => none
  | _ => none

/-- `re.search` of the fence pattern: leftmost position at which the whole
pattern matches. -/
def fenceSearch : List Char → Option (List Char)
  | [] => none
  | c :: cs =>
    match fenceAt (c :: cs) with
    | some cap => some cap
    | none => fenceSearch cs

/-- The working text after the fenced-block step: the captured group when
the fence regex matches, the original text otherwise. -/
def fenceOr (text : String) : String :=
  match fenceSearch text.toList with
  | some cap => String.mk cap
  | none => text

/-- `text.find("\x7b")`. -/
def findOpen (cs : List Char) : Option Nat :=
  cs.findIdx? (fun c => c = '{')

/-- `text.rfind("\x7d")`. -/
def rfindClose (cs : List Char) : Option Nat :=
  match cs.reverse.findIdx? (fun c => c = '}') with
  | some k => some (cs.length - 1 - k)
  | none => none

/-- The `text[start:end+1]` candidate of `_extract_json`, present exactly
when both braces are found and `end > start`. -/
def braceCand (t : String) : Option String :=
  let cs := t.toList
  match findOpen cs, rfindClose cs with
  | some s, some e =>
    if s < e then some (String.mk ((cs.drop s).take (e - s + 1))) else none
  | _, _ => none

/-- `_extract_json` from `providers/llm.py`. -/
def extract_json (text : String) : Option J :=
  if text = "" then none
  else
    let t := fenceOr text
    match jsonLoads t with
    | some v => some v
    | none =>
      match braceCand t with
      | some cand => jsonLoads (repairStr cand)
      | none => none

/-! ### Python-value helpers used by the agents -/

/-- Python truthiness of a parsed JSON value (`bool(v)`); a numeric lexeme
is falsy exactly when its mantissa is all zeros. -/
def numIsZero (s : String) : Bool :=
  let cs := match s.toList with
    | '-' :: r => r
    | '+' :: r => r
    | cs => cs
  let mantissa := cs.takeWhile (fun c => c ≠ 'e' && c ≠ 'E')
  !mantissa.isEmpty && mantissa.all (fun c => c = '0' || c = '.')

def pyFalsy : J → Bool
  | J.null => true
  | J.bool b => !b
  | J.num s => numIsZero s
  | J.str s => s = ""
  | J.arr l => l.isEmpty
  | J.obj o => o.isEmpty

/-- Python `a or b`. -/
def pyOr (a b : J) : J :=
  if pyFalsy a then b else a

/-- `d.get(k)`: `None` for a missing key; raises `AttributeError` when the
receiver is not a dict. -/
def jGet (v : J) (k : String) : Except String J :=
  match v with
  | J.obj o =>
    match o.find? (fun p => p.1 = k) with
    | some p => .ok p.2
    | none => .ok J.null
  | _ => .error "AttributeError: no attribute get"

/-- `(d.get(k) or "").strip()`: falsy values become `""`; a truthy
non-string raises (`str.strip` missing). -/
def getStrField (v : J) (k : String) : Except String String := do
  let x ← jGet v k
  let x := pyOr x (J.str "")
  match x with
  | J.str s => .ok (pyStrip s)
  | _ => .error "AttributeError: no attribute strip"

/-- `for x in v` over a value that has already been `or []`-defaulted:
lists iterate; residual falsy values iterate to nothing; a truthy non-list
fails (`TypeError`, or an `AttributeError` on its elements downstream — in
either case the agent raises). -/
def pyIterList (v : J) : Except String (List J) :=
  match v with
  | J.arr l => .ok l
  | v => if pyFalsy v then .ok [] else .error "TypeError: not iterable as dicts"

/-- `_extract_json(txt) or \x7b\x7d`. -/
def orEmptyObj (o : Option J) : J :=
  match o with
  | none => J.obj []
  | some v => pyOr v (J.obj [])

/-- `float(v)` succeeding: JSON numbers, booleans, and number-shaped
strings.  The numeral is kept verbatim: IEEE-754 value and `:.2f`
formatting are outside the embedding — the agent only branches on
`price_val is not None` and interpolates the number into HTML. -/
def pyFloatOpt (v : J) : Option String :=
  match v with
  | J.num s => some s
  | J.bool b => some (if b then "1.0" else "0.0")
  | J.str s =>
    let t := pyStrip s
    if t ≠ "" &&
       t.toList.all (fun c =>
         c.isDigit || c = '.' || c = '-' || c = '+' || c = 'e' || c = 'E') &&
       t.toList.any Char.isDigit
    then some t else none
  | _ => none

/-- Display form of a parsed value used where the Python code stores the raw
value in a `rendered` slot (the `bullets` schema); container contents are
elided — display-only, no claim depends on it. -/
def jAsStr : J → String
  | J.str s => s
  | J.null => "None"
  | J.bool b => if b then "True" else "False"
  | J.num s => s
  | J.arr _ => "[…]"
  | J.obj _ => "\x7b…\x7d"

/-! ### Data model: Item, Section, History -/

/-- One digest item (`\x7b"title": ..., "rendered": ..., "image_url": ...\x7d`);
items built without an `image_url` key carry `none`. -/
structure Item where
  title : String
  rendered : String
  image_url : Option String := none
deriving DecidableEq, Repr

/-- A well-formed section dict (`\x7b"heading": ..., "items": [...]\x7d`). -/
structure Sect where
  heading : String
  items : List Item
deriving DecidableEq, Repr

/-- The history record of `data/history.json` in its documented shape. -/
structure Hist where
  math_hashes : List String
  bible_refs : List String
  last_horoscope_date : String
deriving DecidableEq, Repr

/-- Python `l[-n:]` for `n > 0`: the most recent (last) `n` entries. -/
def lastN (n : Nat) (l : List String) : List String :=
  l.drop (l.length - n)

/-- `hist["math_hashes"] = (hist.get("math_hashes", []) + new_hashes)[-200:]`. -/
def updMath (h : Hist) (newHashes : List String) : Hist :=
  { h with math_hashes := lastN 200 (h.math_hashes ++ newHashes) }

/-- `hist["bible_refs"] = (recent + [ref])[-60:]`. -/
def updBible (h : Hist) (ref : String) : Hist :=
  { h with bible_refs := lastN 60 (h.bible_refs ++ [ref]) }

/-- `hist["last_horoscope_date"] = today`. -/
def updHoro (h : Hist) (d : String) : Hist :=
  { h with last_horoscope_date := d }

/-- One history mutation as performed by some agent during a run. -/
inductive HistOp where
  | math (newHashes : List String)
  | bible (ref : String)
  | horo (d : String)

def applyOp (h : Hist) : HistOp → Hist
  | .math l => updMath h l
  | .bible r => updBible h r
  | .horo d => updHoro h d

def applyOps (h : Hist) (ops : List HistOp) : Hist :=
  ops.foldl applyOp h

/-- Result of one agent invocation that owns history: the returned section,
the resulting in-memory history, and whether `_save_hist` was called. -/
structure AgentRun where
  sec : Sect
  hist : Hist
  saved : Bool
deriving DecidableEq, Repr

/-- Agent configuration (`agent_cfg: dict`); only the keys the embedded
code paths read are carried. -/
structure AgentCfg where
  type? : Option String := none
  schema : Option String := none
  query : Option String := none
  purpose : Option String := none
  model : Option String := none
deriving DecidableEq, Repr

/-! ### `llm_math` (providers/llm.py lines 136-198)

The backend reply is the raw text `txt` that `_call_chat` returned (it is
`""` when the transport failed).  `sha` abstracts
`hashlib.sha1(s.encode()).hexdigest()`: every theorem below holds for an
arbitrary hash function.  The prompt construction has no observable effect
in the model because the reply is a parameter. -/

/-- Lines 160-168: extract `data["math"]`, default to `[]`, and keep only
the first two candidates (`problems = problems[:2]` when there are at
least two). -/
def mathCandidates (txt : String) : Except String (List J) := do
  let data := orEmptyObj (extract_json txt)
  let probsJ ← jGet data "math"
  let problems ← pyIterList (pyOr probsJ (J.arr []))
  pure (if problems.length ≥ 2 then problems.take 2 else problems)

/-- Line 170/184: `problem_types[idx] if idx < len(problem_types) else
"Math"`. -/
def problemTitle (idx : Nat) : String :=
  if idx = 0 then "Computational Problem"
  else if idx = 1 then "Proof Problem" else "Math"

/-- Line 189: the rendered body of an accepted problem. -/
def mathRendered (prob tip : String) : String :=
  prob ++ "<br><em>Tip:</em> " ++ tip

/-- Lines 172-190: the `for idx, obj in enumerate(problems)` loop.  `seen`
is computed once before the loop and not updated inside it (matching the
source), so deduplication is only against the stored history. -/
def mathLoop (sha : String → String) (seen : List String) :
    List J → Nat → Except String (List Item × List String)
  | [], _ => .ok ([], [])
  | obj :: rest, idx => do
    let prob ← getStrField obj "problem"
    let tip ← getStrField obj "tip"
    if prob = "" then mathLoop sha seen rest (idx + 1)
    else
      let h := sha (pyLower prob)
      if h ∈ seen then mathLoop sha seen rest (idx + 1)
      else do
        let (its, hs) ← mathLoop sha seen rest (idx + 1)
        pure (⟨problemTitle idx, mathRendered prob tip, none⟩ :: its, h :: hs)

/-- `llm_math(cfg, heading)`: `cfg` is accepted but never read by the
source.  A raised exception (e.g. a non-dict candidate) is `.error`;
otherwise the returned section plus the final history state and whether
`_save_hist` ran. -/
def llm_math (sha : String → String) (_cfg : AgentCfg) (heading : String)
    (hist : Hist) (txt : String) : Except String AgentRun := do
  let seen := hist.math_hashes
  let problems ← mathCandidates txt
  let (items, newHashes) ← mathLoop sha seen problems 0
  if items = [] then
    pure ⟨⟨heading, [⟨"Math (fallback)", txt, none⟩]⟩, hist, false⟩
  else
    pure ⟨⟨heading, items⟩, updMath hist newHashes, true⟩

/-! ### `llm_bible` (lines 200-216) -/

def llm_bible (_cfg : AgentCfg) (heading : String) (hist : Hist)
    (txt : String) : Except String AgentRun := do
  let recent := hist.bible_refs
  let data := orEmptyObj (extract_json txt)
  let bJ ← jGet data "bible"
  let b := pyOr bJ (J.obj [])
  let ref ← getStrField b "reference"
  let text ← getStrField b "text"
  if ref = "" ∨ text = "" then
    pure ⟨⟨heading, [⟨"Bible (fallback)",
      (if txt = "" then "No verse." else txt), none⟩]⟩, hist, false⟩
  else
    pure ⟨⟨heading, [⟨ref, ref ++ " — " ++ text, none⟩]⟩,
      { hist with bible_refs := lastN 60 (recent ++ [ref]) }, true⟩

/-! ### `llm_horoscope` (lines 218-254) -/

def llm_horoscope (_cfg : AgentCfg) (heading : String) (today : Date)
    (hist : Hist) (txt : String) : Except String AgentRun := do
  let data := orEmptyObj (extract_json txt)
  let hJ ← jGet data "horoscope"
  let h := pyOr hJ (J.obj [])
  let daily ← getStrField h "daily"
  let week ← getStrField h "week"
  if daily = "" then
    pure ⟨⟨heading, [⟨"Horoscope (fallback)", txt, none⟩]⟩, hist, false⟩
  else
    pure ⟨⟨heading, [⟨"Today",
      daily ++ "<br><br><strong>Week:</strong> " ++ week, none⟩]⟩,
      updHoro hist (isoformat today), true⟩

/-! ### `llm_search` (lines 258-381)

`today` models both the module-level `TODAY` string and
`datetime.date.today()` inside `_is_recent` (a single-day run).  `raw` is
the text returned by `_call_web_search` (empty on transport failure).
History is neither read nor written by this agent. -/

/-- `data.get(key) or []`, iterated. -/
def listField (data : J) (key : String) : Except String (List J) := do
  let v ← jGet data key
  pyIterList (pyOr v (J.arr []))

/-- `img or None` on the stripped `image_url` field. -/
def imgOpt (img : String) : Option String :=
  if img = "" then none else some img

/-- Field extraction for one `grocery_prices` candidate (lines 315-320):
item, store, raw price value, observed date, source url, image url. -/
def groceryFields (g : J) :
    Except String (String × String × J × String × String × String) := do
  let item ← getStrField g "item"
  let store ← getStrField g "store"
  let price ← jGet g "price_dkk"
  let date ← getStrField g "observed_date"
  let url ← getStrField g "source_url"
  let img ← getStrField g "image_url"
  pure (item, store, price, date, url, img)

/-- Lines 327-330: the acceptance guard of a grocery candidate — named
fields, a coercible price, a non-empty URL, and a date within 7 days. -/
def groceryKeep (today : Date) (item store : String) (price : J)
    (date url : String) : Prop :=
  item ≠ "" ∧ store ≠ "" ∧ (pyFloatOpt price).isSome ∧ url ≠ "" ∧
    is_recent today date 7 = true

instance (today item store price date url) :
    Decidable (groceryKeep today item store price date url) := by
  unfold groceryKeep; infer_instance

/-- Lines 328-330: the accepted grocery item. -/
def groceryItem (item store : String) (price : J) (date url img : String) :
    Item :=
  ⟨item ++ " — " ++ store,
    "<strong>" ++ item ++ "</strong> — " ++ store ++ " — <strong>" ++
      (pyFloatOpt price).getD "" ++ " DKK</strong> — " ++ date ++
      " — <a href='" ++ url ++ "' style='color:#00f0ff;'>view source</a>",
    imgOpt img⟩

/-- The `grocery_prices` candidate loop (lines 313-330). -/
def groceryLoop (today : Date) : List J → Except String (List Item)
  | [] => .ok []
  | g :: rest => do
    let (item, store, price, date, url, img) ← groceryFields g
    let tail ← groceryLoop today rest
    if groceryKeep today item store price date url then
      pure (groceryItem item store price date url img :: tail)
    else pure tail

/-- Field extraction for one `mma_news` candidate (lines 334-340). -/
def mmaFields (m : J) :
    Except String (String × String × String × String × String × String × String) := do
  let ev ← getStrField m "event"
  let dt ← getStrField m "date"
  let hl ← getStrField m "headline"
  let de ← getStrField m "detail"
  let od ← getStrField m "odds"
  let url ← getStrField m "source_url"
  let img ← getStrField m "image_url"
  pure (ev, dt, hl, de, od, url, img)

/-- Line 341: the `mma_news` guard — a URL, today's date or a 3-day
window, and an event or headline. -/
def mmaKeep (today : Date) (ev dt hl url : String) : Prop :=
  url ≠ "" ∧ (dt = isoformat today ∨ is_recent today dt 3 = true) ∧
    (ev ≠ "" ∨ hl ≠ "")

instance (today ev dt hl url) : Decidable (mmaKeep today ev dt hl url) := by
  unfold mmaKeep; infer_instance

/-- Lines 342-343: the accepted MMA item (`ev or hl` as title). -/
def mmaItem (ev dt hl de od url img : String) : Item :=
  ⟨(if ev = "" then hl else ev),
    "<strong>" ++ (if ev = "" then hl else ev) ++ "</strong> — " ++ dt ++
      "<br>" ++ de ++ (if od = "" then "" else "<br>Odds: " ++ od) ++
      "<br><a href='" ++ url ++ "' style='color:#00f0ff;'>source</a>",
    imgOpt img⟩

/-- The `mma_news` candidate loop (lines 332-343). -/
def mmaLoop (today : Date) : List J → Except String (List Item)
  | [] => .ok []
  | m :: rest => do
    let (ev, dt, hl, de, od, url, img) ← mmaFields m
    let tail ← mmaLoop today rest
    if mmaKeep today ev dt hl url then
      pure (mmaItem ev dt hl de od url img :: tail)
    else pure tail

/-- Field extraction for one `science_spirit` candidate (lines 347-353). -/
def scienceFields (s : J) :
    Except String (String × String × String × String × String × String × String) := do
  let title ← getStrField s "title"
  let authors ← getStrField s "authors"
  let venue ← getStrField s "venue_or_institution"
  let dt ← getStrField s "date"
  let summ ← getStrField s "summary"
  let url ← getStrField s "source_url"
  let img ← getStrField s "image_url"
  pure (title, authors, venue, dt, summ, url, img)

/-- Line 354: the `science_spirit` guard — note there is NO recency
check: any non-empty date string passes. -/
def scienceKeep (title url dt : String) : Prop :=
  title ≠ "" ∧ url ≠ "" ∧ dt ≠ ""

instance (title url dt) : Decidable (scienceKeep title url dt) := by
  unfold scienceKeep; infer_instance

/-- Lines 355-356: the accepted study item. -/
def scienceItem (title authors venue dt summ url img : String) : Item :=
  ⟨title,
    "<strong>" ++ title ++ "</strong><br>" ++ authors ++ " — " ++ venue ++
      " — " ++ dt ++ "<br>" ++ summ ++
      "<br><a href='" ++ url ++ "' style='color:#00f0ff;'>source</a>",
    imgOpt img⟩

/-- The `science_spirit` candidate loop (lines 345-356). -/
def scienceLoop : List J → Except String (List Item)
  | [] => .ok []
  | s :: rest => do
    let (title, authors, venue, dt, summ, url, img) ← scienceFields s
    let tail ← scienceLoop rest
    if scienceKeep title url dt then
      pure (scienceItem title authors venue dt summ url img :: tail)
    else pure tail

/-- Field extraction for one `good_news` candidate (lines 360-364). -/
def goodNewsFields (n : J) :
    Except String (String × String × String × String × String) := do
  let hl ← getStrField n "headline"
  let dt ← getStrField n "date"
  let wh ← getStrField n "what_happened"
  let url ← getStrField n "source_url"
  let img ← getStrField n "image_url"
  pure (hl, dt, wh, url, img)

/-- Line 365: the `good_news` guard — headline, URL, 3-day window or
today. -/
def goodNewsKeep (today : Date) (hl dt url : String) : Prop :=
  hl ≠ "" ∧ url ≠ "" ∧ (is_recent today dt 3 = true ∨ dt = isoformat today)

instance (today hl dt url) : Decidable (goodNewsKeep today hl dt url) := by
  unfold goodNewsKeep; infer_instance

/-- Lines 366-367: the accepted good-news item. -/
def goodNewsItem (hl dt wh url img : String) : Item :=
  ⟨hl,
    "<strong>" ++ hl ++ "</strong> — " ++ dt ++ "<br>" ++ wh ++
      "<br><a href='" ++ url ++ "' style='color:#00f0ff;'>source</a>",
    imgOpt img⟩

/-- The `good_news` candidate loop (lines 358-367). -/
def goodNewsLoop (today : Date) : List J → Except String (List Item)
  | [] => .ok []
  | n :: rest => do
    let (hl, dt, wh, url, img) ← goodNewsFields n
    let tail ← goodNewsLoop today rest
    if goodNewsKeep today hl dt url then
      pure (goodNewsItem hl dt wh url img :: tail)
    else pure tail

/-- The default `bullets` loop (lines 369-372): no URL or date filter. -/
def bulletsLoop (heading : String) : List J → Except String (List Item)
  | [] => .ok []
  | b :: rest => do
    let tail ← bulletsLoop heading rest
    if pyFalsy b then pure tail
    else pure (⟨heading, jAsStr b, none⟩ :: tail)

/-- Lines 374-379: when no item survived, surface the raw text (or a
placeholder when even that is empty).  In the source the fallback item has
an explicit `"image_url": None`, like every `add_it` item. -/
def searchFallback (heading raw : String) : List Item :=
  [⟨heading, (if raw ≠ "" then raw else "No results found."), none⟩]

/-- The schema dispatch of `llm_search` (lines 312-372): candidate list
under the schema's key, then the per-schema filter/render loop. -/
def searchItems (schema heading : String) (today : Date) (data : J) :
    Except String (List Item) :=
  if schema = "grocery_prices" then do
    groceryLoop today (← listField data "grocery_prices")
  else if schema = "mma_news" then do
    mmaLoop today (← listField data "mma")
  else if schema = "science_spirit" then do
    scienceLoop (← listField data "studies")
  else if schema = "good_news" then do
    goodNewsLoop today (← listField data "news")
  else do
    bulletsLoop heading (← listField data "bullets")

/-- `llm_search(cfg, heading)` given the web-search reply `raw`. -/
def llm_search (cfg : AgentCfg) (heading : String) (today : Date)
    (raw : String) : Except String Sect := do
  let schema := cfg.schema.getD "bullets"
  let data := orEmptyObj (extract_json raw)
  let items ← searchItems schema heading today data
  pure ⟨heading, if items = [] then searchFallback heading raw else items⟩

/-! ### `_run_agent` (orchestrator.py lines 24-56)

The dispatched provider call is abstracted by its outcome: either an
exception (with its message) or a returned Python value.  A returned value
is a dict — possibly without an `"items"` key, and with any value under
it — or a non-dict; `repr` carries the `str(...)` used by the diagnostic
branches.  The concrete providers embedded above only ever return
well-formed `\x7b"heading": heading, "items": [...]\x7d` dicts (or raise),
which `WellBehaved` captures. -/

/-- The value stored under an `"items"` key: a list of items, or some
other value with its truthiness and `str(...)` display. -/
inductive ItemsVal where
  | list (l : List Item)
  | other (truthy : Bool) (repr : String)
deriving DecidableEq, Repr

/-- The image of `_run_agent`: always a dict with an `"items"` key (every
branch of `_run_agent` either builds one or passes one through), but the
heading may be absent and the items arbitrary on the pass-through path. -/
structure RawSection where
  heading? : Option String
  items : ItemsVal
deriving DecidableEq, Repr

/-- A Python value as returned by a provider call. -/
inductive AgentVal where
  | dict (heading? : Option String) (items? : Option ItemsVal) (repr : String)
  | nonDict (repr : String)
deriving DecidableEq, Repr

/-- The agent `type`s recognized by the `if/elif` dispatch chain. -/
def knownTypes : List String :=
  ["llm_math", "llm_bible", "llm_horoscope", "llm_search", "groceries"]

/-- `str(agent_cfg.get("type"))` as interpolated into the diagnostics. -/
def typeStr (cfg : AgentCfg) : String :=
  cfg.type?.getD "None"

/-- The unknown-type diagnostic section (lines 45-46). -/
def unknownSec (heading t : String) : RawSection :=
  ⟨some heading, .list [⟨"(agent error)", "Unknown agent type: " ++ t, none⟩]⟩

/-- The exception diagnostic section (line 56). -/
def excSec (heading t e : String) : RawSection :=
  ⟨some heading, .list [⟨"(agent exception)",
    "Agent " ++ t ++ " failed: " ++ e, none⟩]⟩

/-- The invalid-shape diagnostic section (line 49). -/
def coercedSec (heading r : String) : RawSection :=
  ⟨some heading, .list [⟨"(agent returned invalid)", r, none⟩]⟩

/-- `_run_agent(agent_cfg, heading)` given the provider-call outcome.  The
config is a dict (as its annotation states), so the function itself never
raises: all branches end in a section dict. -/
def run_agent (cfg : AgentCfg) (heading : String)
    (call : Except String AgentVal) : RawSection :=
  match cfg.type? with
  | some t =>
    if t ∈ knownTypes then
      match call with
      | .error e => excSec heading t e
      | .ok v =>
        match v with
        | .dict h? (some itf) _ => ⟨h?, itf⟩
        | .dict _ none r => coercedSec heading r
        | .nonDict r => coercedSec heading r
    else unknownSec heading t
  | none => unknownSec heading "None"

/-- The providers of this repository return sections carrying the given
heading and a genuine item list whenever they return at all; outcomes with
that property are the ones `_run_agent` can actually receive. -/
def WellBehaved (heading : String) (call : Except String AgentVal) : Prop :=
  ∀ h? itf r, call = .ok (.dict h? (some itf) r) →
    h? = some heading ∧ ∃ l, itf = .list l

/-- Lift an embedded provider result to the dispatch value. -/
def secVal (s : Sect) : AgentVal :=
  .dict (some s.heading) (some (.list s.items)) ""

/-! ### The topic loops

`build_digest` (orchestrator.py lines 57-83) and `build_sections`
(minion.py lines 24-39) both run `_run_agent` per configured agent and
assemble sections; each agent entry carries the outcome of its provider
call.  Rendering/saving of HTML is I/O outside the section contract, so
the embeddings return the section lists those functions build. -/

structure AgentEntry where
  cfg : AgentCfg
  call : Except String AgentVal
deriving Repr

structure Topic where
  heading? : Option String := none
  agents : List AgentEntry := []
deriving Repr

def topicHeading (t : Topic) : String :=
  t.heading?.getD "Untitled"

/-- orchestrator.py lines 67-79, one agent: `sec` is always a nonempty dict
(so the line 69 guard never fires); `sec.get("items") or []` turns a falsy
value into `[]`, a truthy non-list becomes the one-item diagnostic. -/
def orchContrib (heading : String) (e : AgentEntry) : List Item :=
  match (run_agent e.cfg heading e.call).items with
  | .list l => l
  | .other true r => [⟨"(agent invalid items)", r, none⟩]
  | .other false _ => []

/-- The `items_accum` loop of `build_digest` for one topic. -/
def accumOf (heading : String) : List AgentEntry → List Item
  | [] => []
  | e :: es => orchContrib heading e ++ accumOf heading es

/-- orchestrator.py lines 63-83 for one topic: placeholder if empty. -/
def digestSection (t : Topic) : Sect :=
  let heading := topicHeading t
  let acc := accumOf heading t.agents
  ⟨heading,
    if acc = [] then
      [⟨"(no items)", "No items produced for this section.", none⟩]
    else acc⟩

/-- The section list assembled by `orchestrator.build_digest` (the
function then renders it to HTML, which is outside the data contract). -/
def build_digest_sections (topics : List Topic) : List Sect :=
  topics.map digestSection

/-- minion.py lines 33-36, one agent: `if sec and sec.get("items")` skips
falsy item values; `combined.extend` of a truthy non-list raises (a string
would iterate into characters — not representable as `Item`s, modelled as
the same run-aborting error). -/
def minionContrib (heading : String) (e : AgentEntry) :
    Except String (List Item) :=
  match (run_agent e.cfg heading e.call).items with
  | .list [] => .ok []
  | .list l => .ok l
  | .other true _ => .error "TypeError: extend"
  | .other false _ => .ok []

/-- The `combined` accumulation of `build_sections` for one topic. -/
def combinedOf (heading : String) : List AgentEntry → Except String (List Item)
  | [] => .ok []
  | e :: es => do
    let l ← minionContrib heading e
    let r ← combinedOf heading es
    pure (l ++ r)

/-- `minion.build_sections`: note the `if combined:` guard — a topic whose
agents yield no items produces no section at all (no placeholder). -/
def build_sections (maxItems : Nat) : List Topic → Except String (List Sect)
  | [] => .ok []
  | t :: ts => do
    let combined ← combinedOf (topicHeading t) t.agents
    let rest ← build_sections maxItems ts
    pure (if combined = [] then rest
          else ⟨topicHeading t, combined.take maxItems⟩ :: rest)

/-! ## Claims -/

/-- C1: for every agent config and heading, `_run_agent` returns (without
raising) a dict carrying the given heading and an items list; an unknown
agent type yields a diagnostic section naming the unrecognized type, an
exception from the agent yields a one-item section describing the failure
tagged with the agent type, and a non-dict return value or one lacking an
`"items"` key is coerced into a diagnostic section.  The `WellBehaved`
hypothesis records what the pass-through branch receives from this
repository's providers: any dict-with-items they return carries the given
heading and a genuine list. -/
theorem run_agent_spec (cfg : AgentCfg) (heading : String)
    (call : Except String AgentVal) (hwb : WellBehaved heading call) :
    ((run_agent cfg heading call).heading? = some heading
      ∧ ∃ l, (run_agent cfg heading call).items = ItemsVal.list l)
    ∧ (∀ t, cfg.type? = some t → t ∉ knownTypes →
        run_agent cfg heading call = unknownSec heading t)
    ∧ (cfg.type? = none →
        run_agent cfg heading call = unknownSec heading (typeStr cfg))
    ∧ (∀ e t, call = .error e → cfg.type? = some t → t ∈ knownTypes →
        run_agent cfg heading call = excSec heading t e)
    ∧ (∀ t, cfg.type? = some t → t ∈ knownTypes →
        (∀ r, call = .ok (.nonDict r) →
          run_agent cfg heading call = coercedSec heading r)
        ∧ (∀ h? r, call = .ok (.dict h? none r) →
          run_agent cfg heading call = coercedSec heading r)) := by
  refine ⟨?_, ?_, ?_, ?_, ?_⟩
  · match hc : cfg.type? with
    | none => simp [run_agent, hc, unknownSec]
    | some t =>
      by_cases ht : t ∈ knownTypes
      · match hcall : call with
        | .error e => simp [run_agent, hc, ht, hcall, excSec]
        | .ok (.dict h? (some itf) r) =>
          obtain ⟨hh, l, hl⟩ := hwb h? itf r rfl
          subst hh; subst hl
          simp [run_agent, hc, ht, hcall]
        | .ok (.dict h? none r) => simp [run_agent, hc, ht, hcall, coercedSec]
        | .ok (.nonDict r) => simp [run_agent, hc, ht, hcall, coercedSec]
      · simp [run_agent, hc, ht, unknownSec]
  · intro t hc ht; simp [run_agent, hc, ht]
  · intro hc; simp [run_agent, hc, typeStr, hc]
  · intro e t hcall hc ht; simp [run_agent, hc, ht, hcall]
  · intro t hc ht
    exact ⟨fun r hcall => by simp [run_agent, hc, ht, hcall],
           fun h? r hcall => by simp [run_agent, hc, ht, hcall]⟩

theorem run_agent_spec_witness :
    run_agent ⟨some "llm_math", none, none, none, none⟩ "Digest" (.error "boom")
      = excSec "Digest" "llm_math" "boom" :=
  (run_agent_spec ⟨some "llm_math", none, none, none, none⟩ "Digest"
      (.error "boom")
      (fun _ _ _ h => absurd h (by simp))).2.2.2.1 "boom" "llm_math" rfl rfl
    (by decide)

/-! ### Reduction lemmas for the `Except` plumbing -/

theorem exBind_ok {α β : Type} (a : α) (f : α → Except String β) :
    (Except.ok a : Except String α) >>= f = f a := rfl

theorem exBind_err {α β : Type} (e : String) (f : α → Except String β) :
    (Except.error e : Except String α) >>= f = .error e := rfl

theorem exPure {α : Type} (a : α) : (pure a : Except String α) = .ok a := rfl

/-- Support for the `WellBehaved` hypothesis of `run_agent_spec`: every
embedded provider, whenever it returns at all, returns a section carrying
exactly the heading it was given (with a genuine item list), so its lifted
dispatch value satisfies `WellBehaved`. -/
theorem providers_wellBehaved :
    (∀ sha cfg heading hist txt r, llm_math sha cfg heading hist txt = .ok r →
      r.sec.heading = heading ∧ WellBehaved heading (.ok (secVal r.sec)))
    ∧ (∀ cfg heading hist txt r, llm_bible cfg heading hist txt = .ok r →
      r.sec.heading = heading ∧ WellBehaved heading (.ok (secVal r.sec)))
    ∧ (∀ cfg heading today hist txt r,
        llm_horoscope cfg heading today hist txt = .ok r →
      r.sec.heading = heading ∧ WellBehaved heading (.ok (secVal r.sec)))
    ∧ (∀ cfg heading today raw sec, llm_search cfg heading today raw = .ok sec →
      sec.heading = heading ∧ WellBehaved heading (.ok (secVal sec))) := by
  have hwb : ∀ (heading : String) (s : Sect), s.heading = heading →
      WellBehaved heading (.ok (secVal s)) := by
    intro heading s hh h? itf r hv
    simp only [secVal] at hv
    cases hv
    exact ⟨by rw [hh], s.items, rfl⟩
  have hmath : ∀ (sha : String → String) cfg heading hist txt
      (r : AgentRun), llm_math sha cfg heading hist txt = .ok r →
      r.sec.heading = heading := by
    intro sha cfg heading hist txt r h
    simp only [llm_math] at h
    cases hc : mathCandidates txt with
    | error e => rw [hc, exBind_err] at h; cases h
    | ok probs =>
      rw [hc, exBind_ok] at h
      cases hl : mathLoop sha hist.math_hashes probs 0 with
      | error e => rw [hl, exBind_err] at h; cases h
      | ok out =>
        rw [hl, exBind_ok] at h
        obtain ⟨items, hashes⟩ := out
        by_cases hie : items = [] <;>
          simp only [hie, if_pos, if_neg, if_true, if_false, exPure] at h <;>
          cases h <;> rfl
  have hbible : ∀ cfg heading hist txt (r : AgentRun),
      llm_bible cfg heading hist txt = .ok r → r.sec.heading = heading := by
    intro cfg heading hist txt r h
    simp only [llm_bible] at h
    cases hb : jGet (orEmptyObj (extract_json txt)) "bible" with
    | error e => rw [hb, exBind_err] at h; cases h
    | ok bj =>
      rw [hb, exBind_ok] at h
      cases hrf : getStrField (pyOr bj (J.obj [])) "reference" with
      | error e => rw [hrf, exBind_err] at h; cases h
      | ok ref =>
        rw [hrf, exBind_ok] at h
        cases htx : getStrField (pyOr bj (J.obj [])) "text" with
        | error e => rw [htx, exBind_err] at h; cases h
        | ok text =>
          rw [htx, exBind_ok] at h
          by_cases hre : ref = "" ∨ text = "" <;>
            simp only [hre, if_pos, if_neg, if_true, if_false, exPure] at h <;>
            cases h <;> rfl
  have hhoro : ∀ cfg heading today hist txt (r : AgentRun),
      llm_horoscope cfg heading today hist txt = .ok r →
      r.sec.heading = heading := by
    intro cfg heading today hist txt r h
    simp only [llm_horoscope] at h
    cases hh : jGet (orEmptyObj (extract_json txt)) "horoscope" with
    | error e => rw [hh, exBind_err] at h; cases h
    | ok hj =>
      rw [hh, exBind_ok] at h
      cases hd : getStrField (pyOr hj (J.obj [])) "daily" with
      | error e => rw [hd, exBind_err] at h; cases h
      | ok daily =>
        rw [hd, exBind_ok] at h
        cases hw : getStrField (pyOr hj (J.obj [])) "week" with
        | error e => rw [hw, exBind_err] at h; cases h
        | ok week =>
          rw [hw, exBind_ok] at h
          by_cases hde : daily = "" <;>
            simp only [hde, if_pos, if_neg, if_true, if_false, exPure] at h <;>
            cases h <;> rfl
  have hsearch : ∀ cfg heading today raw (sec : Sect),
      llm_search cfg heading today raw = .ok sec →
      sec.heading = heading := by
    intro cfg heading today raw sec h
    simp only [llm_search] at h
    cases hsi : searchItems (cfg.schema.getD "bullets") heading today
        (orEmptyObj (extract_json raw)) with
    | error e => rw [hsi, exBind_err] at h; cases h
    | ok items =>
      rw [hsi, exBind_ok, exPure] at h
      cases h
      rfl
  refine ⟨?_, ?_, ?_, ?_⟩
  · intro sha cfg heading hist txt r h
    have := hmath sha cfg heading hist txt r h
    exact ⟨this, hwb heading r.sec this⟩
  · intro cfg heading hist txt r h
    have := hbible cfg heading hist txt r h
    exact ⟨this, hwb heading r.sec this⟩
  · intro cfg heading today hist txt r h
    have := hhoro cfg heading today hist txt r h
    exact ⟨this, hwb heading r.sec this⟩
  · intro cfg heading today raw sec h
    have := hsearch cfg heading today raw sec h
    exact ⟨this, hwb heading sec this⟩

/-- The history record respects its size bounds. -/
def BoundedHist (h : Hist) : Prop :=
  h.math_hashes.length ≤ 200 ∧ h.bible_refs.length ≤ 60

instance (h : Hist) : Decidable (BoundedHist h) := by
  unfold BoundedHist; infer_instance

/-- C8: the history updates cap `math_hashes` at 200 and `bible_refs` at
60, keep exactly the most recently appended entries (the capped list is a
suffix of old ++ new of the maximal allowed length), and any sequence of
agent-run mutations preserves the bounds. -/
theorem history_bounds_spec :
    (∀ (h : Hist) (newHashes : List String),
        (updMath h newHashes).math_hashes.length ≤ 200
        ∧ (updMath h newHashes).math_hashes.IsSuffix (h.math_hashes ++ newHashes)
        ∧ (updMath h newHashes).math_hashes.length
            = min (h.math_hashes.length + newHashes.length) 200)
    ∧ (∀ (h : Hist) (ref : String),
        (updBible h ref).bible_refs.length ≤ 60
        ∧ (updBible h ref).bible_refs.IsSuffix (h.bible_refs ++ [ref])
        ∧ (updBible h ref).bible_refs.length
            = min (h.bible_refs.length + 1) 60)
    ∧ (∀ (ops : List HistOp) (h : Hist),
        BoundedHist h → BoundedHist (applyOps h ops)) := by
  have hm : ∀ (h : Hist) (newHashes : List String),
      (updMath h newHashes).math_hashes.length ≤ 200
      ∧ (updMath h newHashes).math_hashes.IsSuffix (h.math_hashes ++ newHashes)
      ∧ (updMath h newHashes).math_hashes.length
          = min (h.math_hashes.length + newHashes.length) 200 := by
    intro h newHashes
    refine ⟨?_, List.drop_suffix _ _, ?_⟩ <;>
      simp [updMath, lastN, List.length_drop] <;> omega
  have hb : ∀ (h : Hist) (ref : String),
      (updBible h ref).bible_refs.length ≤ 60
      ∧ (updBible h ref).bible_refs.IsSuffix (h.bible_refs ++ [ref])
      ∧ (updBible h ref).bible_refs.length
          = min (h.bible_refs.length + 1) 60 := by
    intro h ref
    refine ⟨?_, List.drop_suffix _ _, ?_⟩ <;>
      simp [updBible, lastN, List.length_drop] <;> omega
  refine ⟨hm, hb, ?_⟩
  intro ops
  induction ops with
  | nil => intro h hbnd; exact hbnd
  | cons op rest ih =>
    intro h hbnd
    have : BoundedHist (applyOp h op) := by
      cases op with
      | math l => exact ⟨(hm h l).1, by simpa [applyOp, updMath] using hbnd.2⟩
      | bible r => exact ⟨by simpa [applyOp, updBible] using hbnd.1, (hb h r).1⟩
      | horo d => exact ⟨by simpa [applyOp, updHoro] using hbnd.1,
          by simpa [applyOp, updHoro] using hbnd.2⟩
    simpa [applyOps, List.foldl_cons] using ih (applyOp h op) this

theorem history_bounds_spec_witness :
    BoundedHist (applyOps ⟨[], [], ""⟩ [.math ["h1", "h2"], .bible "John 1:1"]) :=
  history_bounds_spec.2.2 [.math ["h1", "h2"], .bible "John 1:1"] ⟨[], [], ""⟩
    (by decide)

/-- Structural facts about `minion.build_sections`: every emitted section
comes from some topic as the (truncated) combined item list of its agents,
nonempty before truncation; and there are at most as many sections as
topics. -/
theorem build_sections_ok (maxItems : Nat) (topics : List Topic)
    (secs : List Sect) (h : build_sections maxItems topics = .ok secs) :
    secs.length ≤ topics.length
    ∧ (∀ s ∈ secs, ∃ t ∈ topics, ∃ c,
        combinedOf (topicHeading t) t.agents = .ok c ∧ c ≠ [] ∧
        s = ⟨topicHeading t, c.take maxItems⟩) := by
  induction topics generalizing secs with
  | nil =>
    simp only [build_sections] at h
    cases h
    simp
  | cons t ts ih =>
    simp only [build_sections] at h
    cases hc : combinedOf (topicHeading t) t.agents with
    | error e => rw [hc, exBind_err] at h; cases h
    | ok c =>
      rw [hc, exBind_ok] at h
      cases hr : build_sections maxItems ts with
      | error e => rw [hr, exBind_err] at h; cases h
      | ok rest =>
        rw [hr, exBind_ok, exPure] at h
        obtain ⟨hlen, hmem⟩ := ih rest hr
        by_cases hce : c = []
        · rw [if_pos hce] at h
          cases h
          refine ⟨by simpa using Nat.le_succ_of_le hlen, ?_⟩
          intro s hs
          obtain ⟨t', ht', hrest⟩ := hmem s hs
          exact ⟨t', by simp [ht'], hrest⟩
        · rw [if_neg hce] at h
          cases h
          constructor
          · simpa using Nat.succ_le_succ hlen
          · intro s hs
            rcases List.mem_cons.mp hs with hs | hs
            · exact ⟨t, by simp, c, hc, hce, hs⟩
            · obtain ⟨t', ht', hrest⟩ := hmem s hs
              exact ⟨t', by simp [ht'], hrest⟩

/-- C2 (amended): `orchestrator.build_digest` assembles exactly one section
per topic, in topic-declaration order (the output list is the pointwise
image of the topic list), each section carrying the topic heading and at
least one item, with the `(no items)` placeholder substituted when a topic
accumulates nothing; `minion.build_sections` also never emits an empty
section (for a positive cap), but a topic whose agents yield no items is
dropped instead of receiving a placeholder. -/
theorem digest_sections_spec :
    (∀ topics : List Topic,
      (build_digest_sections topics).length = topics.length
      ∧ ∀ i : Nat, (build_digest_sections topics)[i]?
          = (topics[i]?).map digestSection)
    ∧ (∀ t : Topic,
        (digestSection t).heading = topicHeading t
        ∧ (digestSection t).items ≠ []
        ∧ (accumOf (topicHeading t) t.agents = [] →
            (digestSection t).items
              = [⟨"(no items)", "No items produced for this section.", none⟩])
        ∧ (accumOf (topicHeading t) t.agents ≠ [] →
            (digestSection t).items = accumOf (topicHeading t) t.agents))
    ∧ (∀ (maxItems : Nat) (topics : List Topic) (secs : List Sect),
        1 ≤ maxItems → build_sections maxItems topics = .ok secs →
        secs.length ≤ topics.length ∧ ∀ s ∈ secs, s.items ≠ []) := by
  refine ⟨?_, ?_, ?_⟩
  · intro topics
    exact ⟨by simp [build_digest_sections],
           fun i => by simp [build_digest_sections]⟩
  · intro t
    by_cases hacc : accumOf (topicHeading t) t.agents = [] <;>
      simp [digestSection, hacc]
  · intro maxItems topics secs hpos h
    obtain ⟨hlen, hmem⟩ := build_sections_ok maxItems topics secs h
    refine ⟨hlen, ?_⟩
    intro s hs
    obtain ⟨t, _, c, _, hce, hsec⟩ := hmem s hs
    subst hsec
    intro hnil
    rcases List.take_eq_nil_iff.mp hnil with h0 | h0
    · omega
    · exact hce h0

theorem digest_sections_spec_witness :
    ((build_digest_sections [⟨some "T", []⟩]).length = 1
      ∧ (build_digest_sections [⟨some "T", []⟩])[0]?
          = some (digestSection ⟨some "T", []⟩))
    ∧ (digestSection ⟨some "T", []⟩).items
        = [⟨"(no items)", "No items produced for this section.", none⟩] := by
  have h1 := (digest_sections_spec.1 [⟨some "T", []⟩])
  have h2 := (digest_sections_spec.2.1 ⟨some "T", []⟩).2.2.1 (by rfl)
  exact ⟨⟨h1.1, by simpa using h1.2 0⟩, h2⟩

/-- C2 counterexample: the claim also names `minion.build_sections`, but
there a topic whose agents yield no items produces no section at all —
one topic, zero sections, no placeholder. -/
theorem digest_sections_cex :
    build_sections 5 [⟨some "T", []⟩] = .ok [] := rfl

/-- C3 (amended): the per-topic truncation to `maxItemsPerSection` happens
in `minion.build_sections` — every emitted section is exactly the first
`maxItems` of its topic's combined item list — while
`orchestrator.build_digest` applies no truncation: a topic that
accumulates items emits all of them. -/
theorem truncation_spec :
    (∀ (maxItems : Nat) (topics : List Topic) (secs : List Sect),
      build_sections maxItems topics = .ok secs →
      ∀ s ∈ secs, ∃ t ∈ topics, ∃ c,
        combinedOf (topicHeading t) t.agents = .ok c ∧ c ≠ [] ∧
        s = ⟨topicHeading t, c.take maxItems⟩)
    ∧ (∀ t : Topic, accumOf (topicHeading t) t.agents ≠ [] →
        (digestSection t).items = accumOf (topicHeading t) t.agents) := by
  refine ⟨?_, ?_⟩
  · intro maxItems topics secs h
    exact (build_sections_ok maxItems topics secs h).2
  · intro t hacc
    simp [digestSection, hacc]

/-- A provider call returning six items under heading `"T"`. -/
def sixEntry : AgentEntry :=
  ⟨⟨some "llm_math", none, none, none, none⟩,
   .ok (secVal ⟨"T", [⟨"1", "a", none⟩, ⟨"2", "b", none⟩, ⟨"3", "c", none⟩,
                      ⟨"4", "d", none⟩, ⟨"5", "e", none⟩, ⟨"6", "f", none⟩]⟩)⟩

theorem truncation_spec_witness :
    ∃ t ∈ [(⟨some "T", [sixEntry]⟩ : Topic)], ∃ c,
      combinedOf (topicHeading t) t.agents = .ok c ∧ c ≠ [] ∧
      (⟨"T", [⟨"1", "a", none⟩, ⟨"2", "b", none⟩, ⟨"3", "c", none⟩,
              ⟨"4", "d", none⟩, ⟨"5", "e", none⟩]⟩ : Sect)
        = ⟨topicHeading t, c.take 5⟩ := by
  refine truncation_spec.1 5 [⟨some "T", [sixEntry]⟩] _ rfl _ ?_
  simp [build_sections, combinedOf, minionContrib, run_agent, sixEntry,
    secVal, topicHeading, exBind_ok, exPure, knownTypes]

/-- C3 counterexample: `orchestrator.build_digest` does not truncate — a
topic whose agents produce six items emits a section with all six, not the
first five (`maxItemsPerSection` defaults to 5 and is never read there). -/
theorem truncation_cex :
    (build_digest_sections [⟨some "T", [sixEntry]⟩]).map
        (fun s => s.items.length) = [6]
    ∧ ¬ (6 : Nat) ≤ 5 := ⟨rfl, by decide⟩

/-! ### `llm_math` facts (C5, C10) -/

/-- Every item the math loop emits stems from a distinct candidate with a
non-blank problem whose fingerprint is not recorded in the history, and
there are no more items than candidates. -/
theorem mathLoop_facts (sha : String → String) (seen : List String) :
    ∀ (probs : List J) (idx : Nat) (out : List Item × List String),
      mathLoop sha seen probs idx = .ok out →
      out.1.length ≤ probs.length
      ∧ ∀ it ∈ out.1, ∃ (i : Nat) (prob tip : String),
          prob ≠ "" ∧ sha (pyLower prob) ∉ seen
          ∧ it = ⟨problemTitle i, mathRendered prob tip, none⟩ := by
  intro probs
  induction probs with
  | nil =>
    intro idx out h
    simp only [mathLoop] at h
    cases h
    simp
  | cons obj rest ih =>
    intro idx out h
    simp only [mathLoop] at h
    cases hp : getStrField obj "problem" with
    | error e => rw [hp, exBind_err] at h; cases h
    | ok prob =>
      rw [hp, exBind_ok] at h
      cases ht : getStrField obj "tip" with
      | error e => rw [ht, exBind_err] at h; cases h
      | ok tip =>
        rw [ht, exBind_ok] at h
        by_cases hpe : prob = ""
        · rw [if_pos hpe] at h
          obtain ⟨hlen, hmem⟩ := ih (idx + 1) out h
          exact ⟨Nat.le_succ_of_le hlen, hmem⟩
        · rw [if_neg hpe] at h
          by_cases hsn : sha (pyLower prob) ∈ seen
          · rw [if_pos hsn] at h
            obtain ⟨hlen, hmem⟩ := ih (idx + 1) out h
            exact ⟨Nat.le_succ_of_le hlen, hmem⟩
          · rw [if_neg hsn] at h
            cases hrec : mathLoop sha seen rest (idx + 1) with
            | error e => rw [hrec, exBind_err] at h; cases h
            | ok pr =>
              rw [hrec, exBind_ok, exPure] at h
              cases h
              obtain ⟨hlen, hmem⟩ := ih (idx + 1) pr hrec
              constructor
              · simpa using Nat.succ_le_succ hlen
              · intro it hit
                rcases List.mem_cons.mp hit with hit | hit
                · exact ⟨idx, prob, tip, hpe, hsn, hit⟩
                · exact hmem it hit

/-- Lines 166-168: at most two candidate problems survive truncation. -/
theorem mathCandidates_le_two (txt : String) (probs : List J)
    (h : mathCandidates txt = .ok probs) : probs.length ≤ 2 := by
  simp only [mathCandidates] at h
  cases hg : jGet (orEmptyObj (extract_json txt)) "math" with
  | error e => rw [hg, exBind_err] at h; cases h
  | ok pj =>
    rw [hg, exBind_ok] at h
    cases hi : pyIterList (pyOr pj (J.arr [])) with
    | error e => rw [hi, exBind_err] at h; cases h
    | ok l =>
      rw [hi, exBind_ok, exPure] at h
      cases h
      split
      · simp [List.length_take]
      · omega

/-- C5: `llm_math` never emits an item whose fingerprint (hash of the
case-normalized problem text) is already present in `math_hashes`, and it
never pads — every non-fallback item stems from a candidate problem absent
from the history, and the item count never exceeds the (≤ 2) candidate
count. -/
theorem math_dedup_spec (sha : String → String) (cfg : AgentCfg)
    (heading : String) (hist : Hist) (txt : String) (r : AgentRun)
    (h : llm_math sha cfg heading hist txt = .ok r) :
    (∀ it ∈ r.sec.items,
      it = ⟨"Math (fallback)", txt, none⟩
      ∨ ∃ (i : Nat) (prob tip : String),
          prob ≠ "" ∧ sha (pyLower prob) ∉ hist.math_hashes
          ∧ it = ⟨problemTitle i, mathRendered prob tip, none⟩)
    ∧ (r.saved = true → ∃ probs, mathCandidates txt = .ok probs ∧
        r.sec.items.length ≤ probs.length ∧ probs.length ≤ 2) := by
  simp only [llm_math] at h
  cases hc : mathCandidates txt with
  | error e => rw [hc, exBind_err] at h; cases h
  | ok probs =>
    rw [hc, exBind_ok] at h
    cases hl : mathLoop sha hist.math_hashes probs 0 with
    | error e => rw [hl, exBind_err] at h; cases h
    | ok out =>
      rw [hl, exBind_ok] at h
      obtain ⟨items, hashes⟩ := out
      obtain ⟨hlen, hmem⟩ :=
        mathLoop_facts sha hist.math_hashes probs 0 (items, hashes) hl
      by_cases hie : items = []
      · simp only [hie, if_pos, exPure] at h
        cases h
        constructor
        · intro it hit
          left
          simpa using hit
        · intro hsv
          simp at hsv
      · rw [if_neg hie, exPure] at h
        cases h
        constructor
        · intro it hit
          exact Or.inr (hmem it hit)
        · intro _
          exact ⟨probs, rfl, hlen, mathCandidates_le_two txt probs hc⟩

/-- Shared concrete inputs for the witnesses. -/
def idSha : String → String := fun s => s

def cfgNone : AgentCfg := ⟨none, none, none, none, none⟩

/-- A backend reply with two problems, the first of which is already
fingerprinted in the history below. -/
def mathTxtW : String :=
  "\x7b\"math\":[\x7b\"problem\":\"P1\",\"tip\":\"t\"\x7d,\x7b\"problem\":\"P2\",\"tip\":\"u\"\x7d]\x7d"

def histW : Hist := ⟨["p1"], [], ""⟩

def mathRunW : AgentRun :=
  ⟨⟨"M", [⟨"Proof Problem", mathRendered "P2" "u", none⟩]⟩,
   ⟨["p1", "p2"], [], ""⟩, true⟩

theorem math_dedup_spec_witness :
    (⟨"Proof Problem", mathRendered "P2" "u", none⟩ : Item)
        = ⟨"Math (fallback)", mathTxtW, none⟩
    ∨ ∃ (i : Nat) (prob tip : String),
        prob ≠ "" ∧ idSha (pyLower prob) ∉ histW.math_hashes
        ∧ (⟨"Proof Problem", mathRendered "P2" "u", none⟩ : Item)
            = ⟨problemTitle i, mathRendered prob tip, none⟩ :=
  (math_dedup_spec idSha cfgNone "M" histW mathTxtW mathRunW rfl).1
    ⟨"Proof Problem", mathRendered "P2" "u", none⟩ (by simp [mathRunW])

/-- C10: `llm_math` ignores its config entirely (so the requested count has
no effect), keeps at most the first two extracted candidates, and emits at
most two items per invocation. -/
theorem math_two_items_spec :
    (∀ (sha : String → String) (cfg cfg' : AgentCfg) (heading : String)
        (hist : Hist) (txt : String),
      llm_math sha cfg heading hist txt = llm_math sha cfg' heading hist txt)
    ∧ (∀ txt probs, mathCandidates txt = .ok probs → probs.length ≤ 2)
    ∧ (∀ (sha : String → String) (cfg : AgentCfg) (heading : String)
        (hist : Hist) (txt : String) (r : AgentRun),
      llm_math sha cfg heading hist txt = .ok r →
      r.sec.items.length ≤ 2) := by
  refine ⟨fun _ _ _ _ _ _ => rfl,
          fun txt probs h => mathCandidates_le_two txt probs h, ?_⟩
  intro sha cfg heading hist txt r h
  obtain ⟨_, hsv⟩ := math_dedup_spec sha cfg heading hist txt r h
  simp only [llm_math] at h
  cases hc : mathCandidates txt with
  | error e => rw [hc, exBind_err] at h; cases h
  | ok probs =>
    rw [hc, exBind_ok] at h
    cases hl : mathLoop sha hist.math_hashes probs 0 with
    | error e => rw [hl, exBind_err] at h; cases h
    | ok out =>
      rw [hl, exBind_ok] at h
      obtain ⟨items, hashes⟩ := out
      obtain ⟨hlen, _⟩ :=
        mathLoop_facts sha hist.math_hashes probs 0 (items, hashes) hl
      have h2 := mathCandidates_le_two txt probs hc
      by_cases hie : items = []
      · simp only [hie, if_pos, exPure] at h
        cases h
        simp
      · rw [if_neg hie, exPure] at h
        cases h
        exact le_trans hlen h2

theorem math_two_items_spec_witness :
    mathRunW.sec.items.length ≤ 2 :=
  math_two_items_spec.2.2 idSha cfgNone "M" histW mathTxtW mathRunW rfl

/-- C9: each agent mutates and persists only its own history slice, and
only after a validated production: on the fallback path (`saved = false`)
the returned history is exactly the input history, unsaved; on the save
path the other agents' slices are untouched. -/
theorem history_ownership_spec :
    (∀ (sha : String → String) (cfg : AgentCfg) (heading : String)
        (hist : Hist) (txt : String) (r : AgentRun),
      llm_math sha cfg heading hist txt = .ok r →
      (r.saved = false → r.hist = hist
        ∧ r.sec = ⟨heading, [⟨"Math (fallback)", txt, none⟩]⟩)
      ∧ (r.saved = true → r.hist.bible_refs = hist.bible_refs
          ∧ r.hist.last_horoscope_date = hist.last_horoscope_date))
    ∧ (∀ (cfg : AgentCfg) (heading : String) (hist : Hist) (txt : String)
        (r : AgentRun),
      llm_bible cfg heading hist txt = .ok r →
      (r.saved = false → r.hist = hist
        ∧ r.sec = ⟨heading, [⟨"Bible (fallback)",
            (if txt = "" then "No verse." else txt), none⟩]⟩)
      ∧ (r.saved = true → r.hist.math_hashes = hist.math_hashes
          ∧ r.hist.last_horoscope_date = hist.last_horoscope_date))
    ∧ (∀ (cfg : AgentCfg) (heading : String) (today : Date) (hist : Hist)
        (txt : String) (r : AgentRun),
      llm_horoscope cfg heading today hist txt = .ok r →
      (r.saved = false → r.hist = hist
        ∧ r.sec = ⟨heading, [⟨"Horoscope (fallback)", txt, none⟩]⟩)
      ∧ (r.saved = true → r.hist.math_hashes = hist.math_hashes
          ∧ r.hist.bible_refs = hist.bible_refs)) := by
  refine ⟨?_, ?_, ?_⟩
  · intro sha cfg heading hist txt r h
    simp only [llm_math] at h
    cases hc : mathCandidates txt with
    | error e => rw [hc, exBind_err] at h; cases h
    | ok probs =>
      rw [hc, exBind_ok] at h
      cases hl : mathLoop sha hist.math_hashes probs 0 with
      | error e => rw [hl, exBind_err] at h; cases h
      | ok out =>
        rw [hl, exBind_ok] at h
        obtain ⟨items, hashes⟩ := out
        by_cases hie : items = []
        · simp only [hie, if_pos, exPure] at h
          cases h
          exact ⟨fun _ => ⟨rfl, rfl⟩, fun hsv => by simp at hsv⟩
        · rw [if_neg hie, exPure] at h
          cases h
          exact ⟨fun hsv => by simp at hsv,
                 fun _ => ⟨by simp [updMath], by simp [updMath]⟩⟩
  · intro cfg heading hist txt r h
    simp only [llm_bible] at h
    cases hb : jGet (orEmptyObj (extract_json txt)) "bible" with
    | error e => rw [hb, exBind_err] at h; cases h
    | ok bj =>
      rw [hb, exBind_ok] at h
      cases hrf : getStrField (pyOr bj (J.obj [])) "reference" with
      | error e => rw [hrf, exBind_err] at h; cases h
      | ok ref =>
        rw [hrf, exBind_ok] at h
        cases htx : getStrField (pyOr bj (J.obj [])) "text" with
        | error e => rw [htx, exBind_err] at h; cases h
        | ok text =>
          rw [htx, exBind_ok] at h
          by_cases hre : ref = "" ∨ text = ""
          · rw [if_pos hre, exPure] at h
            cases h
            exact ⟨fun _ => ⟨rfl, rfl⟩, fun hsv => by simp at hsv⟩
          · rw [if_neg hre, exPure] at h
            cases h
            exact ⟨fun hsv => by simp at hsv, fun _ => ⟨rfl, rfl⟩⟩
  · intro cfg heading today hist txt r h
    simp only [llm_horoscope] at h
    cases hh : jGet (orEmptyObj (extract_json txt)) "horoscope" with
    | error e => rw [hh, exBind_err] at h; cases h
    | ok hj =>
      rw [hh, exBind_ok] at h
      cases hd : getStrField (pyOr hj (J.obj [])) "daily" with
      | error e => rw [hd, exBind_err] at h; cases h
      | ok daily =>
        rw [hd, exBind_ok] at h
        cases hw : getStrField (pyOr hj (J.obj [])) "week" with
        | error e => rw [hw, exBind_err] at h; cases h
        | ok week =>
          rw [hw, exBind_ok] at h
          by_cases hde : daily = ""
          · rw [if_pos hde, exPure] at h
            cases h
            exact ⟨fun _ => ⟨rfl, rfl⟩, fun hsv => by simp at hsv⟩
          · rw [if_neg hde, exPure] at h
            cases h
            exact ⟨fun hsv => by simp at hsv,
                   fun _ => ⟨by simp [updHoro], by simp [updHoro]⟩⟩

theorem history_ownership_spec_witness :
    (⟨⟨"B", [⟨"Bible (fallback)", "junk", none⟩]⟩, histW, false⟩ : AgentRun).hist
        = histW
    ∧ (⟨⟨"B", [⟨"Bible (fallback)", "junk", none⟩]⟩, histW, false⟩
          : AgentRun).sec
        = ⟨"B", [⟨"Bible (fallback)",
            (if ("junk" : String) = "" then "No verse." else "junk"), none⟩]⟩ :=
  (history_ownership_spec.2.1 cfgNone "B" histW "junk"
    ⟨⟨"B", [⟨"Bible (fallback)", "junk", none⟩]⟩, histW, false⟩ rfl).1 rfl

/-- C6 (code-level violation): with an empty backend reply — exactly what
`_call_chat` returns on a transport failure — `llm_math` and
`llm_horoscope` emit their fallback item with `rendered` equal to the raw
empty text, so the rendered field is empty rather than an explanatory
placeholder (`llm_bible` and `llm_search` guard this case; these two do
not). -/
theorem fallback_rendered_empty :
    llm_math idSha cfgNone "Math" ⟨[], [], ""⟩ "" =
      .ok ⟨⟨"Math", [⟨"Math (fallback)", "", none⟩]⟩, ⟨[], [], ""⟩, false⟩
    ∧ llm_horoscope cfgNone "Horoscope" ⟨2026, 10, 12⟩ ⟨[], [], ""⟩ "" =
      .ok ⟨⟨"Horoscope", [⟨"Horoscope (fallback)", "", none⟩]⟩,
        ⟨[], [], ""⟩, false⟩
    ∧ (Item.mk "Math (fallback)" "" none).rendered = "" :=
  ⟨rfl, rfl, rfl⟩

/-! ### `llm_search` filtering (C4) -/

/-- A grocery item accepted by the filter: its fields extract, the guard
holds (in particular the source URL is non-empty and the date within 7
days of today), and the item is its rendering. -/
def acceptedGrocery (today : Date) (g : J) (it : Item) : Prop :=
  ∃ item store price date url img,
    groceryFields g = .ok (item, store, price, date, url, img)
    ∧ groceryKeep today item store price date url
    ∧ it = groceryItem item store price date url img

/-- An MMA item accepted by the filter: non-empty URL and a date that is
today or within 3 days. -/
def acceptedMma (today : Date) (m : J) (it : Item) : Prop :=
  ∃ ev dt hl de od url img,
    mmaFields m = .ok (ev, dt, hl, de, od, url, img)
    ∧ mmaKeep today ev dt hl url
    ∧ it = mmaItem ev dt hl de od url img

/-- A study item accepted by the filter: non-empty title, URL and date
string — with no recency requirement. -/
def acceptedScience (s : J) (it : Item) : Prop :=
  ∃ title authors venue dt summ url img,
    scienceFields s = .ok (title, authors, venue, dt, summ, url, img)
    ∧ scienceKeep title url dt
    ∧ it = scienceItem title authors venue dt summ url img

/-- A good-news item accepted by the filter: non-empty headline and URL,
and a date within 3 days or equal to today. -/
def acceptedGoodNews (today : Date) (n : J) (it : Item) : Prop :=
  ∃ hl dt wh url img,
    goodNewsFields n = .ok (hl, dt, wh, url, img)
    ∧ goodNewsKeep today hl dt url
    ∧ it = goodNewsItem hl dt wh url img

theorem groceryLoop_mem (today : Date) :
    ∀ (gs : List J) (its : List Item), groceryLoop today gs = .ok its →
      ∀ it ∈ its, ∃ g ∈ gs, acceptedGrocery today g it := by
  intro gs
  induction gs with
  | nil =>
    intro its h
    simp only [groceryLoop] at h
    cases h
    simp
  | cons g rest ih =>
    intro its h
    simp only [groceryLoop] at h
    cases hf : groceryFields g with
    | error e => simp only [hf, exBind_err] at h; cases h
    | ok fs =>
      obtain ⟨item, store, price, date, url, img⟩ := fs
      simp only [hf, exBind_ok] at h
      cases ht : groceryLoop today rest with
      | error e => simp only [ht, exBind_err] at h; cases h
      | ok tail =>
        simp only [ht, exBind_ok] at h
        by_cases hk : groceryKeep today item store price date url
        · rw [if_pos hk, exPure] at h
          cases h
          intro it hit
          rcases List.mem_cons.mp hit with hit | hit
          · exact ⟨g, by simp,
              item, store, price, date, url, img, hf, hk, hit⟩
          · obtain ⟨g', hg', hacc⟩ := ih tail ht it hit
            exact ⟨g', by simp [hg'], hacc⟩
        · rw [if_neg hk, exPure] at h
          cases h
          intro it hit
          obtain ⟨g', hg', hacc⟩ := ih _ ht it hit
          exact ⟨g', by simp [hg'], hacc⟩

theorem mmaLoop_mem (today : Date) :
    ∀ (ms : List J) (its : List Item), mmaLoop today ms = .ok its →
      ∀ it ∈ its, ∃ m ∈ ms, acceptedMma today m it := by
  intro ms
  induction ms with
  | nil =>
    intro its h
    simp only [mmaLoop] at h
    cases h
    simp
  | cons m rest ih =>
    intro its h
    simp only [mmaLoop] at h
    cases hf : mmaFields m with
    | error e => simp only [hf, exBind_err] at h; cases h
    | ok fs =>
      obtain ⟨ev, dt, hl, de, od, url, img⟩ := fs
      simp only [hf, exBind_ok] at h
      cases ht : mmaLoop today rest with
      | error e => simp only [ht, exBind_err] at h; cases h
      | ok tail =>
        simp only [ht, exBind_ok] at h
        by_cases hk : mmaKeep today ev dt hl url
        · rw [if_pos hk, exPure] at h
          cases h
          intro it hit
          rcases List.mem_cons.mp hit with hit | hit
          · exact ⟨m, by simp, ev, dt, hl, de, od, url, img, hf, hk, hit⟩
          · obtain ⟨m', hm', hacc⟩ := ih tail ht it hit
            exact ⟨m', by simp [hm'], hacc⟩
        · rw [if_neg hk, exPure] at h
          cases h
          intro it hit
          obtain ⟨m', hm', hacc⟩ := ih _ ht it hit
          exact ⟨m', by simp [hm'], hacc⟩

theorem scienceLoop_mem :
    ∀ (ss : List J) (its : List Item), scienceLoop ss = .ok its →
      ∀ it ∈ its, ∃ s ∈ ss, acceptedScience s it := by
  intro ss
  induction ss with
  | nil =>
    intro its h
    simp only [scienceLoop] at h
    cases h
    simp
  | cons s rest ih =>
    intro its h
    simp only [scienceLoop] at h
    cases hf : scienceFields s with
    | error e => simp only [hf, exBind_err] at h; cases h
    | ok fs =>
      obtain ⟨title, authors, venue, dt, summ, url, img⟩ := fs
      simp only [hf, exBind_ok] at h
      cases ht : scienceLoop rest with
      | error e => simp only [ht, exBind_err] at h; cases h
      | ok tail =>
        simp only [ht, exBind_ok] at h
        by_cases hk : scienceKeep title url dt
        · rw [if_pos hk, exPure] at h
          cases h
          intro it hit
          rcases List.mem_cons.mp hit with hit | hit
          · exact ⟨s, by simp,
              title, authors, venue, dt, summ, url, img, hf, hk, hit⟩
          · obtain ⟨s', hs', hacc⟩ := ih tail ht it hit
            exact ⟨s', by simp [hs'], hacc⟩
        · rw [if_neg hk, exPure] at h
          cases h
          intro it hit
          obtain ⟨s', hs', hacc⟩ := ih _ ht it hit
          exact ⟨s', by simp [hs'], hacc⟩

theorem goodNewsLoop_mem (today : Date) :
    ∀ (ns : List J) (its : List Item), goodNewsLoop today ns = .ok its →
      ∀ it ∈ its, ∃ n ∈ ns, acceptedGoodNews today n it := by
  intro ns
  induction ns with
  | nil =>
    intro its h
    simp only [goodNewsLoop] at h
    cases h
    simp
  | cons n rest ih =>
    intro its h
    simp only [goodNewsLoop] at h
    cases hf : goodNewsFields n with
    | error e => simp only [hf, exBind_err] at h; cases h
    | ok fs =>
      obtain ⟨hl, dt, wh, url, img⟩ := fs
      simp only [hf, exBind_ok] at h
      cases ht : goodNewsLoop today rest with
      | error e => simp only [ht, exBind_err] at h; cases h
      | ok tail =>
        simp only [ht, exBind_ok] at h
        by_cases hk : goodNewsKeep today hl dt url
        · rw [if_pos hk, exPure] at h
          cases h
          intro it hit
          rcases List.mem_cons.mp hit with hit | hit
          · exact ⟨n, by simp, hl, dt, wh, url, img, hf, hk, hit⟩
          · obtain ⟨n', hn', hacc⟩ := ih tail ht it hit
            exact ⟨n', by simp [hn'], hacc⟩
        · rw [if_neg hk, exPure] at h
          cases h
          intro it hit
          obtain ⟨n', hn', hacc⟩ := ih _ ht it hit
          exact ⟨n', by simp [hn'], hacc⟩

theorem searchItems_grocery (heading : String) (today : Date) (data : J) :
    searchItems "grocery_prices" heading today data
      = (listField data "grocery_prices") >>= groceryLoop today := rfl

theorem searchItems_mma (heading : String) (today : Date) (data : J) :
    searchItems "mma_news" heading today data
      = (listField data "mma") >>= mmaLoop today := rfl

theorem searchItems_science (heading : String) (today : Date) (data : J) :
    searchItems "science_spirit" heading today data
      = (listField data "studies") >>= scienceLoop := rfl

theorem searchItems_good (heading : String) (today : Date) (data : J) :
    searchItems "good_news" heading today data
      = (listField data "news") >>= goodNewsLoop today := rfl

/-- C4 (amended): for the schemas that filter (`grocery_prices`,
`mma_news`, `good_news`), every item in the section returned by
`llm_search` is either part of the raw-text fallback or the rendering of a
candidate that passed its schema's guard — which requires a non-empty
source URL and a date inside the schema's recency window (7 days; same-day
or 3 days; 3 days or same-day respectively).  The `science_spirit` schema
requires a non-empty URL and a non-empty date string but imposes no
recency window, and the `bullets` schema filters neither URLs nor dates. -/
theorem search_filter_spec (cfg : AgentCfg) (heading : String) (today : Date)
    (raw : String) (sec : Sect)
    (h : llm_search cfg heading today raw = .ok sec) :
    (cfg.schema = some "grocery_prices" → ∀ it ∈ sec.items,
      sec.items = searchFallback heading raw
      ∨ ∃ gs, listField (orEmptyObj (extract_json raw)) "grocery_prices" = .ok gs
          ∧ ∃ g ∈ gs, acceptedGrocery today g it)
    ∧ (cfg.schema = some "mma_news" → ∀ it ∈ sec.items,
      sec.items = searchFallback heading raw
      ∨ ∃ ms, listField (orEmptyObj (extract_json raw)) "mma" = .ok ms
          ∧ ∃ m ∈ ms, acceptedMma today m it)
    ∧ (cfg.schema = some "good_news" → ∀ it ∈ sec.items,
      sec.items = searchFallback heading raw
      ∨ ∃ ns, listField (orEmptyObj (extract_json raw)) "news" = .ok ns
          ∧ ∃ n ∈ ns, acceptedGoodNews today n it)
    ∧ (cfg.schema = some "science_spirit" → ∀ it ∈ sec.items,
      sec.items = searchFallback heading raw
      ∨ ∃ ss, listField (orEmptyObj (extract_json raw)) "studies" = .ok ss
          ∧ ∃ s ∈ ss, acceptedScience s it) := by
  refine ⟨?_, ?_, ?_, ?_⟩
  · intro hs
    simp only [llm_search, hs, Option.getD_some, searchItems_grocery] at h
    cases hls : listField (orEmptyObj (extract_json raw)) "grocery_prices" with
    | error e => simp only [hls, exBind_err] at h; cases h
    | ok gs =>
      simp only [hls, exBind_ok] at h
      cases hlp : groceryLoop today gs with
      | error e => simp only [hlp, exBind_err] at h; cases h
      | ok its =>
        simp only [hlp, exBind_ok, exPure] at h
        cases h
        by_cases hie : its = []
        · intro it _
          left
          simp [hie]
        · intro it hit
          rw [if_neg hie] at hit
          exact Or.inr ⟨gs, rfl, groceryLoop_mem today gs its hlp it hit⟩
  · intro hs
    simp only [llm_search, hs, Option.getD_some, searchItems_mma] at h
    cases hls : listField (orEmptyObj (extract_json raw)) "mma" with
    | error e => simp only [hls, exBind_err] at h; cases h
    | ok ms =>
      simp only [hls, exBind_ok] at h
      cases hlp : mmaLoop today ms with
      | error e => simp only [hlp, exBind_err] at h; cases h
      | ok its =>
        simp only [hlp, exBind_ok, exPure] at h
        cases h
        by_cases hie : its = []
        · intro it _
          left
          simp [hie]
        · intro it hit
          rw [if_neg hie] at hit
          exact Or.inr ⟨ms, rfl, mmaLoop_mem today ms its hlp it hit⟩
  · intro hs
    simp only [llm_search, hs, Option.getD_some, searchItems_good] at h
    cases hls : listField (orEmptyObj (extract_json raw)) "news" with
    | error e => simp only [hls, exBind_err] at h; cases h
    | ok ns =>
      simp only [hls, exBind_ok] at h
      cases hlp : goodNewsLoop today ns with
      | error e => simp only [hlp, exBind_err] at h; cases h
      | ok its =>
        simp only [hlp, exBind_ok, exPure] at h
        cases h
        by_cases hie : its = []
        · intro it _
          left
          simp [hie]
        · intro it hit
          rw [if_neg hie] at hit
          exact Or.inr ⟨ns, rfl, goodNewsLoop_mem today ns its hlp it hit⟩
  · intro hs
    simp only [llm_search, hs, Option.getD_some, searchItems_science] at h
    cases hls : listField (orEmptyObj (extract_json raw)) "studies" with
    | error e => simp only [hls, exBind_err] at h; cases h
    | ok ss =>
      simp only [hls, exBind_ok] at h
      cases hlp : scienceLoop ss with
      | error e => simp only [hlp, exBind_err] at h; cases h
      | ok its =>
        simp only [hlp, exBind_ok, exPure] at h
        cases h
        by_cases hie : its = []
        · intro it _
          left
          simp [hie]
        · intro it hit
          rw [if_neg hie] at hit
          exact Or.inr ⟨ss, rfl, scienceLoop_mem ss its hlp it hit⟩

def today26 : Date := ⟨2026, 10, 12⟩

def grocCfg : AgentCfg := ⟨some "llm_search", some "grocery_prices", none, none, none⟩

theorem search_filter_spec_witness :
    ([⟨"G", "No results found.", none⟩] : List Item)
        = searchFallback "G" ""
    ∨ ∃ gs, listField (orEmptyObj (extract_json "")) "grocery_prices" = .ok gs
        ∧ ∃ g ∈ gs, acceptedGrocery today26 g ⟨"G", "No results found.", none⟩ :=
  (search_filter_spec grocCfg "G" today26 ""
      ⟨"G", [⟨"G", "No results found.", none⟩]⟩ rfl).1 rfl
    ⟨"G", "No results found.", none⟩ (by simp)

def sciCfg : AgentCfg := ⟨some "llm_search", some "science_spirit", none, none, none⟩

/-- A web-search reply whose single study is dated 2000-01-01 — far
outside every recency window the spec describes (same-day or 3-7 days). -/
def sciRaw : String :=
  "\x7b\"studies\":[\x7b\"title\":\"T\",\"source_url\":\"https://x\",\"date\":\"2000-01-01\"\x7d]\x7d"

/-- C4 counterexample: under the `science_spirit` schema an extracted item
whose date lies 9781 days in the past (far outside any allowed recency
window) still appears in the returned section, because that schema only
checks that the date string is non-empty. -/
theorem search_filter_cex :
    llm_search sciCfg "H" today26 sciRaw =
      .ok ⟨"H", [⟨"T",
        "<strong>T</strong><br> —  — 2000-01-01<br><br><a href='https://x' style='color:#00f0ff;'>source</a>",
        none⟩]⟩
    ∧ is_recent today26 "2000-01-01" 7 = false
    ∧ rataDie today26 - rataDie ⟨2000, 1, 1⟩ = 9781 :=
  ⟨rfl, rfl, rfl⟩

/-! ### `_extract_json` control flow (C7) -/

/-- C7 (amended): on an input whose (possibly fence-stripped) text fails
the direct parse, `_extract_json` takes the first-`\x7b`-to-last-`\x7d`
substring, UNCONDITIONALLY applies the trailing-comma repair to it and
attempts a single parse of the repaired text; only when the repair leaves
the substring unchanged is the result exactly the substring's own parse.
(The claimed step order — parse the substring as-is first, repair and
retry only on failure — is not what the code does; see the
counterexample.) -/
theorem extract_repair_spec (text : String) (hne : text ≠ "")
    (hfail : jsonLoads (fenceOr text) = none) :
    extract_json text
      = (braceCand (fenceOr text)).bind (fun cand => jsonLoads (repairStr cand))
    ∧ ∀ cand, braceCand (fenceOr text) = some cand → repairStr cand = cand →
        extract_json text = jsonLoads cand := by
  have hx : extract_json text
      = (braceCand (fenceOr text)).bind
          (fun cand => jsonLoads (repairStr cand)) := by
    simp only [extract_json, if_neg hne, hfail]
    cases hb : braceCand (fenceOr text) <;> simp
  refine ⟨hx, fun cand hb hr => ?_⟩
  rw [hx, hb]
  simp [hr]

theorem extract_repair_spec_witness :
    extract_json "p \x7b\"a\": 1\x7d q" = jsonLoads "\x7b\"a\": 1\x7d" :=
  (extract_repair_spec "p \x7b\"a\": 1\x7d q" (by decide) rfl).2
    "\x7b\"a\": 1\x7d" rfl rfl

/-- The C7 counterexample input: direct parse fails, no fence, and the
brace substring is itself valid JSON containing `,\x7d` inside a string
literal. -/
def cexText : String := "x\x7b\"a\": \"b,\x7d\"\x7d"

def cexCand : String := "\x7b\"a\": \"b,\x7d\"\x7d"

/-- C7 counterexample: the brace substring of `cexText` is already valid
JSON (the object mapping `"a"` to the string `"b,\x7d"`), yet
`_extract_json` does not return its parse: the repair regex rewrites the
`,\x7d` inside the string literal before the (single) parse attempt, so
the extractor returns the object mapping `"a"` to `"b\x7d"` instead. -/
theorem extract_repair_cex :
    jsonLoads cexText = none
    ∧ fenceOr cexText = cexText
    ∧ braceCand cexText = some cexCand
    ∧ jsonLoads cexCand = some (J.obj [("a", J.str "b,\x7d")])
    ∧ extract_json cexText = some (J.obj [("a", J.str "b\x7d")])
    ∧ J.obj [("a", J.str "b\x7d")] ≠ J.obj [("a", J.str "b,\x7d")] :=
  ⟨rfl, rfl, rfl, rfl, rfl, by simp⟩

end Minion
